import Mathlib

/-!
Shallow embedding of the Merkle-tree program in `src/main.rs`
(`CleanPegasus/merkle-trees`).

Byte sequences (`Vec<u8>`) are modelled as `List Nat`, each entry a byte.
The external `crypto` crate's SHA-256 is implemented below bit-for-bit
(verified against the FIPS 180-4 test vectors during development); the
repository's own `sha256_hasher` feeds its parts into one streaming
context and returns the printable lowercase-hex text of the digest,
re-encoded as bytes, which for SHA-256 equals hashing the concatenation
of the parts.

Rust `panic!` sites (the `unwrap()` calls in `build_tree` and
`insert_node`) are modelled by `Except String`: `.error` is a panic,
`.ok` a normal return.
-/

/-- A byte string: `Vec<u8>` in the source. -/
abbrev Bytes := List Nat

namespace Sha256

/-- Truncation to a 32-bit word. -/
def w32 (n : Nat) : Nat := n % 4294967296

/-- Right rotation of a 32-bit word by `n` bits. -/
def rotr (n x : Nat) : Nat := (x >>> n) ||| (w32 (x <<< (32 - n)))

/-- The σ0 message-schedule function of SHA-256. -/
def ssig0 (x : Nat) : Nat := (rotr 7 x) ^^^ (rotr 18 x) ^^^ (x >>> 3)

/-- The σ1 message-schedule function of SHA-256. -/
def ssig1 (x : Nat) : Nat := (rotr 17 x) ^^^ (rotr 19 x) ^^^ (x >>> 10)

/-- The Σ0 round function of SHA-256. -/
def bsig0 (x : Nat) : Nat := (rotr 2 x) ^^^ (rotr 13 x) ^^^ (rotr 22 x)

/-- The Σ1 round function of SHA-256. -/
def bsig1 (x : Nat) : Nat := (rotr 6 x) ^^^ (rotr 11 x) ^^^ (rotr 25 x)

/-- The Ch function of SHA-256; `4294967295 - w32 e` is the 32-bit complement. -/
def chF (e f g : Nat) : Nat := (e &&& f) ^^^ ((4294967295 - w32 e) &&& g)

/-- The Maj function of SHA-256. -/
def majF (a b c : Nat) : Nat := (a &&& b) ^^^ (a &&& c) ^^^ (b &&& c)

/-- The 64 SHA-256 round constants. -/
def roundK : List Nat :=
  [1116352408, 1899447441, 3049323471, 3921009573, 961987163, 1508970993,
   2453635748, 2870763221, 3624381080, 310598401, 607225278, 1426881987,
   1925078388, 2162078206, 2614888103, 3248222580, 3835390401, 4022224774,
   264347078, 604807628, 770255983, 1249150122, 1555081692, 1996064986,
   2554220882, 2821834349, 2952996808, 3210313671, 3336571891, 3584528711,
   113926993, 338241895, 666307205, 773529912, 1294757372, 1396182291,
   1695183700, 1986661051, 2177026350, 2456956037, 2730485921, 2820302411,
   3259730800, 3345764771, 3516065817, 3600352804, 4094571909, 275423344,
   430227734, 506948616, 659060556, 883997877, 958139571, 1322822218,
   1537002063, 1747873779, 1955562222, 2024104815, 2227730452, 2361852424,
   2428436474, 2756734187, 3204031479, 3329325298]

/-- The initial SHA-256 chaining value. -/
def initH : List Nat :=
  [1779033703, 3144134277, 1013904242, 2773480762, 1359893119,
   2600822924, 528734635, 1541459225]

/-- Big-endian byte encoding of `n` on `k` bytes. -/
def natToBytesBE : Nat → Nat → List Nat
  | 0, _ => []
  | k + 1, n => natToBytesBE k (n / 256) ++ [n % 256]

/-- FIPS 180-4 padding: append `0x80`, zero bytes up to 56 mod 64, then
the 64-bit big-endian bit length. -/
def padMessage (msg : List Nat) : List Nat :=
  let len := msg.length
  let zeros := (119 - len % 64) % 64
  msg ++ [0x80] ++ List.replicate zeros 0 ++ natToBytesBE 8 (len * 8)

/-- Big-endian packing of bytes into 32-bit words. -/
def bytesToWords : List Nat → List Nat
  | a :: b :: c :: d :: rest => (((a * 256 + b) * 256 + c) * 256 + d) :: bytesToWords rest
  | _ => []

/-- Split a word list into `n` chunks of 16 words. -/
def chunks16 : Nat → List Nat → List (List Nat)
  | 0, _ => []
  | n + 1, w => w.take 16 :: chunks16 n (w.drop 16)

/-- Extend a 16-word block to the 64-word message schedule (`n` more words). -/
def extendSchedule : Nat → List Nat → List Nat
  | 0, w => w
  | n + 1, w =>
    let i := w.length
    let nw := w32 (ssig1 (w.getD (i - 2) 0) + w.getD (i - 7) 0 +
                   ssig0 (w.getD (i - 15) 0) + w.getD (i - 16) 0)
    extendSchedule n (w ++ [nw])

/-- One SHA-256 compression round on the 8-word working state. -/
def round1 (s : List Nat) (k wd : Nat) : List Nat :=
  match s with
  | [a, b, c, d, e, f, g, hh] =>
    let t1 := w32 (hh + bsig1 e + chF e f g + k + wd)
    let t2 := w32 (bsig0 a + majF a b c)
    [w32 (t1 + t2), a, b, c, w32 (d + t1), e, f, g]
  | _ => s

/-- Run the 64 compression rounds. -/
def roundLoop : List (Nat × Nat) → List Nat → List Nat
  | [], s => s
  | (k, wd) :: rest, s => roundLoop rest (round1 s k wd)

/-- Compress one 16-word block into the chaining value. -/
def compressBlock (h : List Nat) (block : List Nat) : List Nat :=
  let w := extendSchedule 48 block
  let final := roundLoop (roundK.zip w) h
  List.zipWith (fun x y => w32 (x + y)) h final

/-- The eight 32-bit words of the SHA-256 digest of a byte string. -/
def sha256Words (msg : List Nat) : List Nat :=
  let ws := bytesToWords (padMessage msg)
  (chunks16 (ws.length / 16) ws).foldl compressBlock initH

/-- ASCII code of the lowercase hex digit for `n < 16`. -/
def hexDigitChar (n : Nat) : Nat := if n < 10 then 48 + n else 87 + n

/-- The eight ASCII lowercase-hex characters of one 32-bit word, big-endian. -/
def wordToHex (x : Nat) : List Nat :=
  [28, 24, 20, 16, 12, 8, 4, 0].map (fun s => hexDigitChar ((x >>> s) % 16))

/-- The 64 ASCII bytes of the lowercase-hex SHA-256 digest of `msg`: what
the Rust `crypto` crate's `result_str().as_bytes()` yields. -/
def sha256HexBytes (msg : List Nat) : Bytes :=
  ((sha256Words msg).map wordToHex).flatten

end Sha256

/-- `struct MerkleNode { left, right: Option<Box<MerkleNode>>, hash: Vec<u8> }`. -/
inductive MerkleNode : Type where
  | mk (left : Option MerkleNode) (right : Option MerkleNode) (hash : Bytes)

/-- Field accessor for `left`. -/
def MerkleNode.left : MerkleNode → Option MerkleNode
  | .mk l _ _ => l

/-- Field accessor for `right`. -/
def MerkleNode.right : MerkleNode → Option MerkleNode
  | .mk _ r _ => r

/-- Field accessor for `hash`. -/
def MerkleNode.hash : MerkleNode → Bytes
  | .mk _ _ h => h

/-- `struct MerkleTree { root: Option<Box<MerkleNode>> }`. -/
structure MerkleTree : Type where
  root : Option MerkleNode

namespace MerkleTree

/-- `MerkleTree::sha256_hasher`: feed each part, in order, into one SHA-256
context and return the hex-text digest bytes.  For SHA-256's streaming
interface this equals hashing the concatenation of the parts. -/
def sha256_hasher (datas : List Bytes) : Bytes :=
  Sha256.sha256HexBytes datas.flatten

/-- `MerkleTree::create_new_data_node`: a childless node holding the
digest of one data block. -/
def create_new_data_node (data : Bytes) : MerkleNode :=
  MerkleNode.mk none none (sha256_hasher [data])

/-- `MerkleTree::build_tree`: recursive balanced construction.  The two
`unwrap()` calls on the recursive results are modelled by the `.error`
branch. -/
def build_tree : List MerkleNode → Except String (Option MerkleNode)
  | [] => .ok none
  | n :: rest =>
    if hr : rest.isEmpty then .ok (some n)
    else
      let nodes := n :: rest
      let mid_node := nodes.length / 2
      match build_tree (nodes.take mid_node), build_tree (nodes.drop mid_node) with
      | .ok left_child, .ok right_child =>
        match left_child, right_child with
        | some lc, some rc =>
          .ok (some (MerkleNode.mk left_child right_child
            (sha256_hasher [lc.hash, rc.hash])))
        | _, _ => .error "unwrap on a None value"
      | .error e, _ => .error e
      | _, .error e => .error e
termination_by nodes => nodes.length
decreasing_by
  · simp [List.length_take]
    omega
  · simp [List.length_drop]
    have : rest ≠ [] := by simpa [List.isEmpty_iff] using hr
    have : 0 < rest.length := List.length_pos.mpr this
    omega

/-- `MerkleTree::new`: hash every block into a leaf, then build. -/
def new (datas : List Bytes) : Except String MerkleTree :=
  let leaf_nodes := datas.map create_new_data_node
  match build_tree leaf_nodes with
  | .ok root => .ok ⟨root⟩
  | .error e => .error e

/-- `MerkleTree::insert_node`: recursive insertion.  A childless node is
promoted to an internal node over itself and the new leaf; otherwise the
code recurses into the left child if present, else the right, and then
recomputes this node's digest from both children, `unwrap()`ing each
(modelled by the `.error` branch). -/
def insert_node (new_node : MerkleNode) : Option MerkleNode → Except String (Option MerkleNode)
  | none => .ok (some new_node)
  | some (.mk left right hash) =>
    if left.isNone && right.isNone then
      .ok (some (MerkleNode.mk (some (MerkleNode.mk left right hash)) (some new_node)
        (sha256_hasher [hash, new_node.hash])))
    else
      match insert_node new_node (if left.isSome then left else right) with
      | .error e => .error e
      | .ok updated =>
        let new_left := if left.isSome then updated else left
        let new_right := if left.isSome then right else updated
        match new_left, new_right with
        | some lc, some rc =>
          .ok (some (MerkleNode.mk new_left new_right
            (sha256_hasher [lc.hash, rc.hash])))
        | _, _ => .error "unwrap on a None value"
termination_by o => sizeOf o
decreasing_by
  split <;> simp_arith

/-- `MerkleTree::insert`: hash the block into a leaf and insert it at the
root, replacing the root pointer. -/
def insert (t : MerkleTree) (data : Bytes) : Except String MerkleTree :=
  let new_node := create_new_data_node data
  match insert_node new_node t.root with
  | .ok r => .ok ⟨r⟩
  | .error e => .error e

/-- `MerkleTree::contains_hash`: exhaustive depth-first search for a stored
digest equal to `data_hash`. -/
def contains_hash : Option MerkleNode → Bytes → Bool
  | none, _ => false
  | some (.mk l r h), data_hash =>
    if h = data_hash then true
    else contains_hash l data_hash || contains_hash r data_hash
termination_by o => sizeOf o

/-- `MerkleTree::contains`: membership of a block, by digest. -/
def contains (t : MerkleTree) (data : Bytes) : Bool :=
  contains_hash t.root (sha256_hasher [data])

end MerkleTree

/-- All digests stored in the (sub)tree, in depth-first preorder. -/
def nodeHashes : Option MerkleNode → List Bytes
  | none => []
  | some (.mk l r h) => h :: (nodeHashes l ++ nodeHashes r)
termination_by o => sizeOf o

/-- Digests of the childless (leaf) nodes of the (sub)tree, left to right.
A one-child node is not a leaf; its leaf digests are those of its child. -/
def leafHashes : Option MerkleNode → List Bytes
  | none => []
  | some (.mk none none h) => [h]
  | some (.mk l r _) => leafHashes l ++ leafHashes r
termination_by o => sizeOf o

/-- The strict-binary structural invariant on a node: it has either zero
children or exactly two, recursively. -/
def strictNode : MerkleNode → Bool
  | .mk none none _ => true
  | .mk (some l) (some r) _ => strictNode l && strictNode r
  | .mk _ _ _ => false
termination_by n => sizeOf n

/-- The strict-binary invariant on an optional root. -/
def strictBinary : Option MerkleNode → Bool
  | none => true
  | some n => strictNode n

/-- Trees reachable through the public construction surface: built from a
batch by `MerkleTree::new`, then extended by any number of successful
`MerkleTree::insert` calls. -/
inductive Reachable : MerkleTree → Prop where
  | built (datas : List Bytes) (t : MerkleTree) :
      MerkleTree.new datas = .ok t → Reachable t
  | inserted (t t2 : MerkleTree) (data : Bytes) :
      Reachable t → MerkleTree.insert t data = .ok t2 → Reachable t2

/-- Left-spine insertion, written as a recursive function that visibly
never touches a right subtree: a childless node is promoted to an internal
node over itself and the new leaf; an internal node keeps its right child
untouched, recurses into its left child, and recomputes its digest.  The
final catch-all arm is never reached on a strict-binary node. -/
def promoteLeftmost (new_node : MerkleNode) : MerkleNode → MerkleNode
  | .mk none none h =>
    MerkleNode.mk (some (MerkleNode.mk none none h)) (some new_node)
      (MerkleTree.sha256_hasher [h, new_node.hash])
  | .mk (some l) (some r) _ =>
    let l2 := promoteLeftmost new_node l
    MerkleNode.mk (some l2) (some r)
      (MerkleTree.sha256_hasher [l2.hash, r.hash])
  | n => n
termination_by n => sizeOf n

/-- Concrete block (the byte of letter a) used to probe membership
preservation. -/
def cex_block_a : Bytes := [97]

/-- Concrete block (the byte of letter b) used to probe membership
preservation. -/
def cex_block_b : Bytes := [98]

/-- Leaf for `cex_block_a`. -/
def cex_leaf_a : MerkleNode := MerkleTree.create_new_data_node cex_block_a

/-- Leaf for `cex_block_b`. -/
def cex_leaf_b : MerkleNode := MerkleTree.create_new_data_node cex_block_b

/-- A query block equal to the concatenation of the two leaf hex digests:
its leaf-style digest coincides with the root's internal digest, because
internal digests hash exactly the concatenation of the child digest
bytes. -/
def cex_y : Bytes := cex_leaf_a.hash ++ cex_leaf_b.hash

/-- A fresh block (the byte of letter x) inserted to disturb the internal
digests. -/
def cex_x : Bytes := [120]

/-- The tree built from the two concrete blocks. -/
def cex_t0 : MerkleTree :=
  ⟨some (MerkleNode.mk (some cex_leaf_a) (some cex_leaf_b)
    (MerkleTree.sha256_hasher [cex_leaf_a.hash, cex_leaf_b.hash]))⟩

/-- The tree after inserting `cex_x` into `cex_t0`: the left leaf is
promoted and the digests along the left spine are recomputed, so the old
root digest is no longer stored anywhere. -/
def cex_t1 : MerkleTree :=
  ⟨some (MerkleNode.mk
    (some (MerkleNode.mk (some cex_leaf_a)
      (some (MerkleTree.create_new_data_node cex_x))
      (MerkleTree.sha256_hasher
        [cex_leaf_a.hash, (MerkleTree.create_new_data_node cex_x).hash])))
    (some cex_leaf_b)
    (MerkleTree.sha256_hasher
      [MerkleTree.sha256_hasher
        [cex_leaf_a.hash, (MerkleTree.create_new_data_node cex_x).hash],
       cex_leaf_b.hash]))⟩

@[simp] theorem MerkleNode.left_mk (l r : Option MerkleNode) (h : Bytes) :
    (MerkleNode.mk l r h).left = l := rfl

@[simp] theorem MerkleNode.right_mk (l r : Option MerkleNode) (h : Bytes) :
    (MerkleNode.mk l r h).right = r := rfl

@[simp] theorem MerkleNode.hash_mk (l r : Option MerkleNode) (h : Bytes) :
    (MerkleNode.mk l r h).hash = h := rfl

/-- A search finds the very digest stored at the root. -/
theorem contains_hash_self (n : MerkleNode) :
    MerkleTree.contains_hash (some n) n.hash = true := by
  cases n with
  | mk l r h => simp [MerkleTree.contains_hash]

/-- The depth-first search of `contains_hash` succeeds exactly when the
target digest is stored at some node of the subtree. -/
theorem contains_hash_iff_mem (o : Option MerkleNode) (target : Bytes) :
    MerkleTree.contains_hash o target = true ↔ target ∈ nodeHashes o := by
  induction o using nodeHashes.induct with
  | case1 => simp [MerkleTree.contains_hash, nodeHashes]
  | case2 l r h ihl ihr =>
    by_cases he : h = target
    · simp [MerkleTree.contains_hash, nodeHashes, he]
    · simp [MerkleTree.contains_hash, nodeHashes, he, ihl, ihr]
      intro hc
      exact absurd hc.symm he

/-- Every leaf digest is a stored digest. -/
theorem leaf_mem_nodeHashes (o : Option MerkleNode) (b : Bytes)
    (hb : b ∈ leafHashes o) : b ∈ nodeHashes o := by
  induction o using leafHashes.induct with
  | case1 => simp [leafHashes] at hb
  | case2 h => simpa [leafHashes, nodeHashes] using hb
  | case3 l r h hne ihl ihr =>
    simp only [leafHashes] at hb
    simp only [nodeHashes, List.mem_cons, List.mem_append] at *
    rcases hb with hb | hb
    · exact Or.inr (Or.inl (ihl hb))
    · exact Or.inr (Or.inr (ihr hb))

/-- Both recursive halves of a list of length at least two are non-empty. -/
theorem mid_halves_nonempty (n : MerkleNode) (rest : List MerkleNode)
    (hr : rest ≠ []) :
    (n :: rest).take ((n :: rest).length / 2) ≠ [] ∧
    (n :: rest).drop ((n :: rest).length / 2) ≠ [] := by
  have h1 : 0 < rest.length := List.length_pos.mpr hr
  constructor
  · intro h
    have := congrArg List.length h
    simp [List.length_take] at this
    omega
  · intro h
    have := congrArg List.length h
    simp [List.length_drop] at this
    omega

/-- `build_tree` on a non-empty node list always returns `Ok(Some _)`:
neither `unwrap()` can fire, because both recursive halves of a list of
length at least two are non-empty. -/
theorem build_tree_ok (nodes : List MerkleNode) :
    nodes ≠ [] → ∃ m, MerkleTree.build_tree nodes = .ok (some m) := by
  induction nodes using MerkleTree.build_tree.induct with
  | case1 => intro h; exact absurd rfl h
  | case2 n rest hr =>
    intro _
    exact ⟨n, by simp [MerkleTree.build_tree, hr]⟩
  | case3 n rest hr nds mid lc rc hlc hrc ihl ihr =>
    intro _
    refine ⟨MerkleNode.mk (some lc) (some rc) (MerkleTree.sha256_hasher [lc.hash, rc.hash]), ?_⟩
    simp only [MerkleTree.build_tree, hr]
    simp only [nds, mid] at hlc hrc
    rw [hlc, hrc]
    simp
  | case4 n rest hr nds mid left_child right_child hdrop htake hmis ihl ihr =>
    intro _
    have hne := mid_halves_nonempty n rest (by simpa [List.isEmpty_iff] using hr)
    obtain ⟨ml, hml⟩ := ihl hne.1
    obtain ⟨mr, hmr⟩ := ihr hne.2
    simp only [nds, mid] at htake hdrop
    rw [htake] at hml
    rw [hdrop] at hmr
    exact absurd (hmis ml mr (Except.ok.inj hml) (Except.ok.inj hmr)) id
  | case5 n rest hr nds mid e he ihl ihr =>
    intro _
    have hne := mid_halves_nonempty n rest (by simpa [List.isEmpty_iff] using hr)
    obtain ⟨ml, hml⟩ := ihl hne.1
    simp only [nds, mid] at he
    rw [he] at hml
    exact absurd hml (by simp)
  | case6 n rest hr nds mid e he hnoerr ihl ihr =>
    intro _
    have hne := mid_halves_nonempty n rest (by simpa [List.isEmpty_iff] using hr)
    obtain ⟨mr, hmr⟩ := ihr hne.2
    simp only [nds, mid] at he
    rw [he] at hmr
    exact absurd hmr (by simp)

/-- A tree built from strict-binary nodes is strict-binary. -/
theorem build_tree_strict (nodes : List MerkleNode)
    (hall : ∀ m ∈ nodes, strictNode m = true) :
    ∀ o : Option MerkleNode, MerkleTree.build_tree nodes = .ok o → strictBinary o = true := by
  induction nodes using MerkleTree.build_tree.induct with
  | case1 =>
    intro o hok
    simp only [MerkleTree.build_tree] at hok
    cases hok
    simp [strictBinary]
  | case2 n rest hr =>
    intro o hok
    simp only [MerkleTree.build_tree, hr] at hok
    simp at hok
    cases hok
    simpa [strictBinary] using hall n (by simp)
  | case3 n rest hr nds mid lc rc hlc hrc ihl ihr =>
    intro o hok
    simp only [MerkleTree.build_tree, hr] at hok
    simp only [nds, mid] at hlc hrc ihl ihr
    rw [hlc, hrc] at hok
    simp at hok
    have hslc := ihl (fun m hm => hall m (List.mem_of_mem_take hm)) _ hlc
    have hsrc := ihr (fun m hm => hall m (List.mem_of_mem_drop hm)) _ hrc
    cases hok
    simp only [strictBinary] at hslc hsrc
    simp [strictBinary, strictNode, hslc, hsrc]
  | case4 n rest hr nds mid left_child right_child hdrop htake hmis ihl ihr =>
    intro o hok
    have hne := mid_halves_nonempty n rest (by simpa [List.isEmpty_iff] using hr)
    obtain ⟨ml, hml⟩ := build_tree_ok _ hne.1
    obtain ⟨mr, hmr⟩ := build_tree_ok _ hne.2
    simp only [nds, mid] at htake hdrop
    rw [htake] at hml
    rw [hdrop] at hmr
    exact absurd (hmis ml mr (Except.ok.inj hml) (Except.ok.inj hmr)) id
  | case5 n rest hr nds mid e he ihl ihr =>
    intro o hok
    have hne := mid_halves_nonempty n rest (by simpa [List.isEmpty_iff] using hr)
    obtain ⟨ml, hml⟩ := build_tree_ok _ hne.1
    simp only [nds, mid] at he
    rw [he] at hml
    exact absurd hml (by simp)
  | case6 n rest hr nds mid e he hnoerr ihl ihr =>
    intro o hok
    have hne := mid_halves_nonempty n rest (by simpa [List.isEmpty_iff] using hr)
    obtain ⟨mr, hmr⟩ := build_tree_ok _ hne.2
    simp only [nds, mid] at he
    rw [he] at hmr
    exact absurd hmr (by simp)

/-- A strict-binary node is either childless or has exactly two children. -/
theorem strictNode_shape (n : MerkleNode) (hs : strictNode n = true) :
    (∃ h, n = MerkleNode.mk none none h) ∨
    (∃ l r h, n = MerkleNode.mk (some l) (some r) h) := by
  cases n with
  | mk l r h => cases l <;> cases r <;> simp_all [strictNode]

/-- On a strict-binary subtree, `insert_node` takes neither the
right-descent branch nor a panic branch: it returns exactly the left-spine
promotion of `promoteLeftmost`. -/
theorem insert_node_strict_eq (nn : MerkleNode) (n : MerkleNode)
    (hs : strictNode n = true) :
    MerkleTree.insert_node nn (some n) = .ok (some (promoteLeftmost nn n)) := by
  induction n using strictNode.induct with
  | case1 h =>
    simp [MerkleTree.insert_node, promoteLeftmost]
  | case2 l r h ihl ihr =>
    simp only [strictNode, Bool.and_eq_true] at hs
    have hl := ihl hs.1
    simp [MerkleTree.insert_node, promoteLeftmost, hl]
  | case3 left right h h1 h2 =>
    exfalso
    rcases strictNode_shape (MerkleNode.mk left right h) hs with ⟨h3, heq⟩ | ⟨l, r, h3, heq⟩
    · injection heq with e1 e2 e3
      exact h1 e1 e2
    · injection heq with e1 e2 e3
      exact h2 l r e1 e2

/-- Left-spine promotion with a strict-binary new leaf preserves the
strict-binary invariant. -/
theorem promoteLeftmost_strict (nn n : MerkleNode) (hnn : strictNode nn = true)
    (hs : strictNode n = true) : strictNode (promoteLeftmost nn n) = true := by
  induction n using strictNode.induct with
  | case1 h => simp [promoteLeftmost, strictNode, hnn]
  | case2 l r h ihl ihr =>
    simp only [strictNode, Bool.and_eq_true] at hs
    simp [promoteLeftmost, strictNode, ihl hs.1, hs.2]
  | case3 left right h h1 h2 =>
    exfalso
    rcases strictNode_shape (MerkleNode.mk left right h) hs with ⟨h3, heq⟩ | ⟨l, r, h3, heq⟩
    · injection heq with e1 e2 e3
      exact h1 e1 e2
    · injection heq with e1 e2 e3
      exact h2 l r e1 e2

/-- A freshly created data node is strict-binary. -/
theorem create_new_data_node_strict (data : Bytes) :
    strictNode (MerkleTree.create_new_data_node data) = true := by
  simp [MerkleTree.create_new_data_node, strictNode]

/-- Whenever `insert_node` returns normally, the digest of the inserted
node is stored somewhere in the returned subtree. -/
theorem insert_node_contains (nn : MerkleNode) :
    ∀ o o2, MerkleTree.insert_node nn o = .ok o2 →
      MerkleTree.contains_hash o2 nn.hash = true := by
  intro o
  induction o using MerkleTree.insert_node.induct nn with
  | case1 =>
    intro o2 hok
    simp only [MerkleTree.insert_node] at hok
    cases hok
    exact contains_hash_self nn
  | case2 left right h hc =>
    intro o2 hok
    simp only [MerkleTree.insert_node, hc] at hok
    simp at hok
    cases hok
    simp [MerkleTree.contains_hash, contains_hash_self]
  | case3 left right h hc e herr ih =>
    intro o2 hok
    simp only [MerkleTree.insert_node, hc] at hok
    simp only [dite_eq_ite] at herr
    rw [herr] at hok
    simp at hok
  | case4 left right h hc updated hrec new_left new_right lc rc hrc ihlc ih =>
    intro o2 hok
    simp only [MerkleTree.insert_node, hc] at hok
    simp only [dite_eq_ite] at hrec
    rw [hrec] at hok
    simp at hok
    simp only [new_left, new_right, dite_eq_ite] at ihlc hrc
    rw [ihlc, hrc] at hok
    simp at hok
    cases hok
    by_cases hls : left.isSome = true
    · have hupd : updated = some lc := by
        rw [← ihlc]
        simp [hls]
      have hcl := ih updated hrec
      rw [hupd] at hcl
      simp [MerkleTree.contains_hash, hcl]
    · exfalso
      have hln : left = none := Option.not_isSome_iff_eq_none.mp hls
      rw [hln] at ihlc
      simp [hls] at ihlc
  | case5 left right h hc updated hrec new_left new_right hmis ih =>
    intro o2 hok
    simp only [MerkleTree.insert_node, hc] at hok
    simp only [dite_eq_ite] at hrec
    rw [hrec] at hok
    simp at hok
    rcases hnl : (if left.isSome = true then updated else left) with _ | ln
    · rw [hnl] at hok
      simp at hok
    · rcases hnr : (if left.isSome = true then right else updated) with _ | rn
      · rw [hnl, hnr] at hok
        simp at hok
      · exact absurd (hmis ln rn (by simp only [new_left, dite_eq_ite]; exact hnl)
          (by simp only [new_right, dite_eq_ite]; exact hnr)) id

/-- Successful insertion of a childless node adds exactly its digest to
the multiset of leaf digests and removes none. -/
theorem insert_node_leaf_multiset (hh : Bytes) :
    ∀ o o2, MerkleTree.insert_node (MerkleNode.mk none none hh) o = .ok o2 →
      (leafHashes o2 : Multiset Bytes) = hh ::ₘ (leafHashes o : Multiset Bytes) := by
  intro o
  induction o using MerkleTree.insert_node.induct (MerkleNode.mk none none hh) with
  | case1 =>
    intro o2 hok
    simp only [MerkleTree.insert_node] at hok
    cases hok
    simp [leafHashes]
  | case2 left right h hc =>
    intro o2 hok
    simp only [Bool.and_eq_true, Option.isNone_iff_eq_none] at hc
    obtain ⟨rfl, rfl⟩ := hc
    simp only [MerkleTree.insert_node] at hok
    simp at hok
    cases hok
    simp [leafHashes]
    exact Multiset.cons_swap h hh 0
  | case3 left right h hc e herr ih =>
    intro o2 hok
    simp only [MerkleTree.insert_node, hc] at hok
    simp only [dite_eq_ite] at herr
    rw [herr] at hok
    simp at hok
  | case4 left right h hc updated hrec new_left new_right lc rc hrc ihlc ih =>
    intro o2 hok
    simp only [MerkleTree.insert_node, hc] at hok
    simp only [dite_eq_ite] at hrec
    rw [hrec] at hok
    simp at hok
    simp only [new_left, new_right, dite_eq_ite] at ihlc hrc
    rw [ihlc, hrc] at hok
    simp at hok
    cases hok
    by_cases hls : left.isSome = true
    · obtain ⟨l0, rfl⟩ := Option.isSome_iff_exists.mp hls
      simp at ihlc hrc
      simp only [dite_eq_ite] at ih hrec
      simp at ih hrec
      have hupd : updated = some lc := by simpa using ihlc
      have hih := ih updated hrec
      rw [hupd] at hih
      subst hrc
      have hlf : leafHashes (some (MerkleNode.mk (some l0) (some rc) h)) =
          leafHashes (some l0) ++ leafHashes (some rc) := by
        simp [leafHashes]
      have hlf2 : leafHashes (some (MerkleNode.mk (some lc) (some rc)
          (MerkleTree.sha256_hasher [lc.hash, rc.hash]))) =
          leafHashes (some lc) ++ leafHashes (some rc) := by
        simp [leafHashes]
      rw [hlf, hlf2, Multiset.cons_coe, Multiset.coe_eq_coe]
      exact hih.append_right _
    · exfalso
      have hln : left = none := Option.not_isSome_iff_eq_none.mp hls
      rw [hln] at ihlc
      simp [hls] at ihlc
  | case5 left right h hc updated hrec new_left new_right hmis ih =>
    intro o2 hok
    simp only [MerkleTree.insert_node, hc] at hok
    simp only [dite_eq_ite] at hrec
    rw [hrec] at hok
    simp at hok
    rcases hnl : (if left.isSome = true then updated else left) with _ | ln
    · rw [hnl] at hok
      simp at hok
    · rcases hnr : (if left.isSome = true then right else updated) with _ | rn
      · rw [hnl, hnr] at hok
        simp at hok
      · exact absurd (hmis ln rn (by simp only [new_left, dite_eq_ite]; exact hnl)
          (by simp only [new_right, dite_eq_ite]; exact hnr)) id

/-- Inserting into an empty tree just installs the new leaf as root. -/
theorem insert_empty_eq (x : Bytes) :
    MerkleTree.insert ⟨none⟩ x = .ok ⟨some (MerkleTree.create_new_data_node x)⟩ := by
  simp [MerkleTree.insert, MerkleTree.insert_node]

/-- Inserting into a strict-binary rooted tree performs the left-spine
promotion. -/
theorem insert_some_eq (n : MerkleNode) (x : Bytes) (hs : strictNode n = true) :
    MerkleTree.insert ⟨some n⟩ x =
      .ok ⟨some (promoteLeftmost (MerkleTree.create_new_data_node x) n)⟩ := by
  simp [MerkleTree.insert, insert_node_strict_eq _ _ hs]

/-- Inversion for `MerkleTree::new`: a successful build determines the
root through `build_tree`. -/
theorem new_inv (datas : List Bytes) (t : MerkleTree)
    (hok : MerkleTree.new datas = .ok t) :
    MerkleTree.build_tree (datas.map MerkleTree.create_new_data_node) = .ok t.root := by
  rcases hb : MerkleTree.build_tree (datas.map MerkleTree.create_new_data_node) with e | root
  · simp [MerkleTree.new, hb] at hok
  · simp [MerkleTree.new, hb] at hok
    rw [← hok]

/-- Every tree reachable through `new` and `insert` is strict-binary. -/
theorem reachable_strictBinary (t : MerkleTree) (h : Reachable t) :
    strictBinary t.root = true := by
  induction h with
  | built datas t hok =>
    have hb := new_inv datas t hok
    refine build_tree_strict _ ?_ _ hb
    intro m hm
    rcases List.mem_map.mp hm with ⟨d, hd, rfl⟩
    exact create_new_data_node_strict d
  | inserted t t2 x hre hok ih =>
    rcases t with ⟨root⟩
    rcases root with _ | n
    · rw [insert_empty_eq] at hok
      cases hok
      simpa [strictBinary] using create_new_data_node_strict x
    · simp only [strictBinary] at ih
      rw [insert_some_eq n x ih] at hok
      cases hok
      simpa [strictBinary] using
        promoteLeftmost_strict _ n (create_new_data_node_strict x) ih

/-- C1: for every tree `t` (including the empty tree) and every block `x`,
immediately after a successful `insert(t, x)`, the query `contains(t, x)`
returns true. -/
theorem claim_C1_post_insert_membership (t t2 : MerkleTree) (x : Bytes)
    (hok : MerkleTree.insert t x = .ok t2) :
    MerkleTree.contains t2 x = true := by
  rcases hin : MerkleTree.insert_node (MerkleTree.create_new_data_node x) t.root with e | r
  · simp [MerkleTree.insert, hin] at hok
  · simp [MerkleTree.insert, hin] at hok
    have hc := insert_node_contains (MerkleTree.create_new_data_node x) t.root r hin
    rw [← hok]
    simpa [MerkleTree.contains, MerkleTree.create_new_data_node] using hc

/-- Witness for C1: the first insertion into the empty tree makes its
block contained. -/
theorem claim_C1_witness :
    MerkleTree.contains ⟨some (MerkleTree.create_new_data_node [1])⟩ [1] = true :=
  claim_C1_post_insert_membership ⟨none⟩ ⟨some (MerkleTree.create_new_data_node [1])⟩ [1]
    (by simp [MerkleTree.insert, MerkleTree.insert_node])

/-- C2: `contains(t, x)` returns true exactly when some node of `t` (leaf
or internal) stores a digest byte-equal to the leaf digest of `x` — the
traversal is an exhaustive depth-first scan of all stored digests — and
`contains` on an empty tree returns false. -/
theorem claim_C2_contains_iff_some_node (t : MerkleTree) (x : Bytes) :
    (MerkleTree.contains t x = true ↔
      MerkleTree.sha256_hasher [x] ∈ nodeHashes t.root) ∧
    MerkleTree.contains ⟨none⟩ x = false := by
  constructor
  · exact contains_hash_iff_mem t.root (MerkleTree.sha256_hasher [x])
  · simp [MerkleTree.contains, MerkleTree.contains_hash]

/-- C4: every tree reachable by construction from a batch (`new`) followed
by any sequence of successful inserts satisfies the structural invariant
that each node has either zero or exactly two children. -/
theorem claim_C4_reachable_strict_binary (t : MerkleTree) (h : Reachable t) :
    strictBinary t.root = true := by
  induction h with
  | built datas t hok =>
    have hb := new_inv datas t hok
    refine build_tree_strict _ ?_ _ hb
    intro m hm
    rcases List.mem_map.mp hm with ⟨d, hd, rfl⟩
    exact create_new_data_node_strict d
  | inserted t t2 x hre hok ih =>
    rcases t with ⟨root⟩
    rcases root with _ | n
    · rw [insert_empty_eq] at hok
      cases hok
      simpa [strictBinary] using create_new_data_node_strict x
    · simp only [strictBinary] at ih
      rw [insert_some_eq n x ih] at hok
      cases hok
      simpa [strictBinary] using
        promoteLeftmost_strict _ n (create_new_data_node_strict x) ih

/-- Witness for C4: a freshly built one-leaf tree, extended by one insert,
is strict-binary. -/
theorem claim_C4_witness :
    strictBinary (MerkleTree.mk (some (MerkleTree.create_new_data_node [1]))).root = true :=
  claim_C4_reachable_strict_binary ⟨some (MerkleTree.create_new_data_node [1])⟩
    (Reachable.built [[1]] _ (by simp [MerkleTree.new, MerkleTree.build_tree]))

/-- C6: the tree built from the one-element batch `[x]` has the lone leaf
itself as root: its root digest is the leaf digest of `x`, with no
re-hashing. -/
theorem claim_C6_single_leaf_identity (x : Bytes) :
    MerkleTree.new [x] = .ok ⟨some (MerkleTree.create_new_data_node x)⟩ ∧
    (MerkleTree.create_new_data_node x).hash = MerkleTree.sha256_hasher [x] := by
  constructor
  · simp [MerkleTree.new, MerkleTree.build_tree]
  · rfl

/-- C7: building from an empty batch yields a rootless tree; `contains` on
it returns false for every block; and the first insert installs the new
leaf directly as root, storing just the leaf digest (no internal-node hash
is computed). -/
theorem claim_C7_empty_tree (x : Bytes) :
    MerkleTree.new [] = .ok ⟨none⟩ ∧
    MerkleTree.contains ⟨none⟩ x = false ∧
    MerkleTree.insert ⟨none⟩ x =
      .ok ⟨some (MerkleNode.mk none none (MerkleTree.sha256_hasher [x]))⟩ := by
  refine ⟨?_, ?_, ?_⟩
  · simp [MerkleTree.new, MerkleTree.build_tree]
  · simp [MerkleTree.contains, MerkleTree.contains_hash]
  · simp [MerkleTree.insert, MerkleTree.insert_node, MerkleTree.create_new_data_node]

/-- C8: the operations are total on their intended domains: `new` (hence
`build_tree`) never hits its unwrap-failure branches on any input because
both recursive halves of a list of length at least 2 are non-empty, and
`insert` on any tree satisfying the strict-binary invariant never hits its
unwrap-failure branches. -/
theorem claim_C8_total_no_panic :
    (∀ datas : List Bytes, ∃ t, MerkleTree.new datas = .ok t) ∧
    (∀ (t : MerkleTree) (x : Bytes), strictBinary t.root = true →
      ∃ t2, MerkleTree.insert t x = .ok t2) := by
  constructor
  · intro datas
    rcases datas with _ | ⟨d, ds⟩
    · exact ⟨⟨none⟩, by simp [MerkleTree.new, MerkleTree.build_tree]⟩
    · obtain ⟨m, hm⟩ :=
        build_tree_ok ((d :: ds).map MerkleTree.create_new_data_node) (by simp)
      exact ⟨⟨some m⟩, by
        simp only [List.map_cons] at hm
        simp [MerkleTree.new, hm]⟩
  · intro t x hs
    rcases t with ⟨_ | n⟩
    · exact ⟨_, insert_empty_eq x⟩
    · exact ⟨_, insert_some_eq n x (by simpa [strictBinary] using hs)⟩

/-- Witness for C8: a three-block build succeeds, and an insert into a
concrete strict-binary one-leaf tree succeeds. -/
theorem claim_C8_witness :
    (∃ t, MerkleTree.new [[1], [2], [3]] = .ok t) ∧
    (∃ t2, MerkleTree.insert ⟨some (MerkleNode.mk none none [7])⟩ [2] = .ok t2) :=
  ⟨claim_C8_total_no_panic.1 [[1], [2], [3]],
   claim_C8_total_no_panic.2 ⟨some (MerkleNode.mk none none [7])⟩ [2]
     (by simp [strictBinary, strictNode])⟩

/-- C9: on a strict-binary tree, a successful `insert` adds exactly one
new leaf whose digest is the leaf digest of `x` and removes no leaf: the
multiset of leaf digests grows by exactly that digest (so re-inserting an
existing block accumulates a duplicate leaf). -/
theorem claim_C9_insert_adds_one_leaf (t t2 : MerkleTree) (x : Bytes)
    (hs : strictBinary t.root = true)
    (hok : MerkleTree.insert t x = .ok t2) :
    (leafHashes t2.root : Multiset Bytes) =
      MerkleTree.sha256_hasher [x] ::ₘ (leafHashes t.root : Multiset Bytes) := by
  rcases hin : MerkleTree.insert_node (MerkleTree.create_new_data_node x) t.root with e | r
  · simp [MerkleTree.insert, hin] at hok
  · simp [MerkleTree.insert, hin] at hok
    rw [← hok]
    simp only [MerkleTree.create_new_data_node] at hin
    exact insert_node_leaf_multiset (MerkleTree.sha256_hasher [x]) t.root r hin

/-- Witness for C9: inserting a block into a concrete one-leaf tree (the
tree already holding that very block) adds a duplicate leaf digest. -/
theorem claim_C9_witness :
    (leafHashes (MerkleTree.mk (some (MerkleNode.mk
        (some (MerkleTree.create_new_data_node [5]))
        (some (MerkleTree.create_new_data_node [5]))
        (MerkleTree.sha256_hasher [MerkleTree.sha256_hasher [[5]],
          MerkleTree.sha256_hasher [[5]]]))) : MerkleTree).root : Multiset Bytes) =
      MerkleTree.sha256_hasher [[5]] ::ₘ
        (leafHashes (MerkleTree.mk (some (MerkleTree.create_new_data_node [5]))).root : Multiset Bytes) :=
  claim_C9_insert_adds_one_leaf
    ⟨some (MerkleTree.create_new_data_node [5])⟩
    ⟨some (MerkleNode.mk
      (some (MerkleTree.create_new_data_node [5]))
      (some (MerkleTree.create_new_data_node [5]))
      (MerkleTree.sha256_hasher [MerkleTree.sha256_hasher [[5]],
        MerkleTree.sha256_hasher [[5]]]))⟩
    [5]
    (by simp [strictBinary, MerkleTree.create_new_data_node, strictNode])
    (by simp [MerkleTree.insert, MerkleTree.insert_node, MerkleTree.create_new_data_node])

/-- C10: on every non-empty strict-binary tree, `insert` descends only
through left children (the right-descent branch is never taken): the
result is exactly the left-spine promotion `promoteLeftmost`, which keeps
every right subtree — structure and digests — unchanged and recomputes
only the digests on the leftmost path; in particular at an internal root
the entire right subtree is returned untouched. -/
theorem claim_C10_left_descent :
    (∀ (n : MerkleNode) (x : Bytes), strictNode n = true →
      MerkleTree.insert ⟨some n⟩ x =
        .ok ⟨some (promoteLeftmost (MerkleTree.create_new_data_node x) n)⟩) ∧
    (∀ (l r : MerkleNode) (h x : Bytes),
      strictNode (MerkleNode.mk (some l) (some r) h) = true →
      MerkleTree.insert ⟨some (MerkleNode.mk (some l) (some r) h)⟩ x =
        .ok ⟨some (MerkleNode.mk
          (some (promoteLeftmost (MerkleTree.create_new_data_node x) l))
          (some r)
          (MerkleTree.sha256_hasher
            [(promoteLeftmost (MerkleTree.create_new_data_node x) l).hash,
             r.hash]))⟩) := by
  constructor
  · intro n x hs
    exact insert_some_eq n x hs
  · intro l r h x hs
    rw [insert_some_eq _ x hs]
    simp [promoteLeftmost]

/-- Witness for C10: both parts applied to a concrete two-leaf tree. -/
theorem claim_C10_witness :
    MerkleTree.insert ⟨some (MerkleNode.mk none none [3])⟩ [1] =
      .ok ⟨some (promoteLeftmost (MerkleTree.create_new_data_node [1])
        (MerkleNode.mk none none [3]))⟩ ∧
    MerkleTree.insert ⟨some (MerkleNode.mk (some (MerkleNode.mk none none [3]))
        (some (MerkleNode.mk none none [4])) [9])⟩ [1] =
      .ok ⟨some (MerkleNode.mk
        (some (promoteLeftmost (MerkleTree.create_new_data_node [1])
          (MerkleNode.mk none none [3])))
        (some (MerkleNode.mk none none [4]))
        (MerkleTree.sha256_hasher
          [(promoteLeftmost (MerkleTree.create_new_data_node [1])
            (MerkleNode.mk none none [3])).hash,
           (MerkleNode.mk none none [4]).hash]))⟩ :=
  ⟨claim_C10_left_descent.1 (MerkleNode.mk none none [3]) [1] (by simp [strictNode]),
   claim_C10_left_descent.2 (MerkleNode.mk none none [3]) (MerkleNode.mk none none [4])
     [9] [1] (by simp [strictNode])⟩

/-- C5: for every batch of at least two blocks, `build` splits the leaf
sequence at midpoint index `len/2` (integer division), recursively builds
each (non-empty) half, and produces a root whose digest is the hash of the
two sub-root digests. -/
theorem claim_C5_midpoint_split (datas : List Bytes) (hlen : 2 ≤ datas.length) :
    ∃ lc rc : MerkleNode,
      MerkleTree.build_tree
        ((datas.map MerkleTree.create_new_data_node).take (datas.length / 2)) =
          .ok (some lc) ∧
      MerkleTree.build_tree
        ((datas.map MerkleTree.create_new_data_node).drop (datas.length / 2)) =
          .ok (some rc) ∧
      MerkleTree.new datas = .ok ⟨some (MerkleNode.mk (some lc) (some rc)
        (MerkleTree.sha256_hasher [lc.hash, rc.hash]))⟩ := by
  rcases datas with _ | ⟨d1, rest1⟩
  · simp at hlen
  rcases rest1 with _ | ⟨d2, ds⟩
  · simp at hlen
  have htk : ((d1 :: d2 :: ds).map MerkleTree.create_new_data_node).take
      ((d1 :: d2 :: ds).length / 2) ≠ [] := by
    intro h
    have := congrArg List.length h
    simp [List.length_take] at this
    omega
  have hdp : ((d1 :: d2 :: ds).map MerkleTree.create_new_data_node).drop
      ((d1 :: d2 :: ds).length / 2) ≠ [] := by
    intro h
    have := congrArg List.length h
    simp [List.length_drop] at this
    omega
  obtain ⟨lc, hlc⟩ := build_tree_ok _ htk
  obtain ⟨rc, hrc⟩ := build_tree_ok _ hdp
  refine ⟨lc, rc, hlc, hrc, ?_⟩
  have hb : MerkleTree.build_tree ((d1 :: d2 :: ds).map MerkleTree.create_new_data_node)
      = .ok (some (MerkleNode.mk (some lc) (some rc)
        (MerkleTree.sha256_hasher [lc.hash, rc.hash]))) := by
    simp only [List.map_cons, List.length_cons, List.length_map] at hlc hrc
    simp only [List.map_cons, MerkleTree.build_tree, List.isEmpty_cons, List.length_cons,
      List.length_map]
    rw [hlc, hrc]
    simp
  rw [MerkleTree.new, hb]

/-- Witness for C5: the three-block batch splits into one and two leaves. -/
theorem claim_C5_witness :
    ∃ lc rc : MerkleNode,
      MerkleTree.build_tree
        ((([[1], [2], [3]] : List Bytes).map MerkleTree.create_new_data_node).take
          (([[1], [2], [3]] : List Bytes).length / 2)) = .ok (some lc) ∧
      MerkleTree.build_tree
        ((([[1], [2], [3]] : List Bytes).map MerkleTree.create_new_data_node).drop
          (([[1], [2], [3]] : List Bytes).length / 2)) = .ok (some rc) ∧
      MerkleTree.new [[1], [2], [3]] = .ok ⟨some (MerkleNode.mk (some lc) (some rc)
        (MerkleTree.sha256_hasher [lc.hash, rc.hash]))⟩ :=
  claim_C5_midpoint_split [[1], [2], [3]] (by simp)

set_option maxRecDepth 100000 in
set_option maxHeartbeats 2000000 in
/-- C3 counterexample: membership is NOT always preserved by insertion.
`cex_t0` is the tree actually built from the two blocks `a` and `b`; the
query block `cex_y` (the concatenation of the two leaf hex digests) is
contained before the insertion — its leaf digest equals the root's
internal digest — but after inserting the distinct block `cex_x` the left
spine digests are recomputed and the old root digest is gone, so the
query returns false. -/
theorem claim_C3_counterexample :
    MerkleTree.new [cex_block_a, cex_block_b] = .ok cex_t0 ∧
    cex_y ≠ cex_x ∧
    MerkleTree.contains cex_t0 cex_y = true ∧
    MerkleTree.insert cex_t0 cex_x = .ok cex_t1 ∧
    MerkleTree.contains cex_t1 cex_y = false := by
  refine ⟨?_, ?_, ?_, ?_, ?_⟩
  · simp [MerkleTree.new, MerkleTree.build_tree, cex_t0, cex_leaf_a, cex_leaf_b]
  · decide
  · simp +decide [MerkleTree.contains, MerkleTree.contains_hash, cex_t0, cex_y,
      MerkleTree.sha256_hasher]
  · have hstrict : strictNode (MerkleNode.mk (some cex_leaf_a) (some cex_leaf_b)
        (MerkleTree.sha256_hasher [cex_leaf_a.hash, cex_leaf_b.hash])) = true := by
      simp [strictNode, cex_leaf_a, cex_leaf_b, MerkleTree.create_new_data_node]
    have h0 : cex_t0 = ⟨some (MerkleNode.mk (some cex_leaf_a) (some cex_leaf_b)
        (MerkleTree.sha256_hasher [cex_leaf_a.hash, cex_leaf_b.hash]))⟩ := rfl
    rw [h0, insert_some_eq _ cex_x hstrict]
    simp [promoteLeftmost, cex_t1, cex_leaf_a, cex_leaf_b, MerkleTree.create_new_data_node]
  · simp +decide [MerkleTree.contains, MerkleTree.contains_hash, cex_t1, cex_y,
      cex_x, cex_leaf_a, cex_leaf_b, cex_block_a, cex_block_b,
      MerkleTree.create_new_data_node, MerkleTree.sha256_hasher]

/-- C3 (amended): for y ≠ x, if the leaf digest of `y` occurs among the
LEAF digests of `t` — the only way a block can match in a tree free of
digest-format coincidences — then after a successful `insert(t, x)` the
query `contains(t, y)` still returns true.  The unamended claim, which
also promises preservation when the pre-insert match is only at an
internal node's digest, is refuted by the counterexample. -/
theorem claim_C3_amended_leaf_membership_preserved (t t2 : MerkleTree)
    (x y : Bytes) (hxy : y ≠ x)
    (hy : MerkleTree.sha256_hasher [y] ∈ leafHashes t.root)
    (hok : MerkleTree.insert t x = .ok t2) :
    MerkleTree.contains t2 y = true := by
  rcases hin : MerkleTree.insert_node (MerkleTree.create_new_data_node x) t.root with e | r
  · simp [MerkleTree.insert, hin] at hok
  · simp [MerkleTree.insert, hin] at hok
    rw [← hok]
    simp only [MerkleTree.create_new_data_node] at hin
    have hmul := insert_node_leaf_multiset (MerkleTree.sha256_hasher [x]) t.root r hin
    have hmem : MerkleTree.sha256_hasher [y] ∈ leafHashes r := by
      have h1 : MerkleTree.sha256_hasher [y] ∈ (leafHashes r : Multiset Bytes) := by
        rw [hmul]
        exact Multiset.mem_cons_of_mem (by exact_mod_cast hy)
      simpa using h1
    exact (contains_hash_iff_mem r (MerkleTree.sha256_hasher [y])).mpr
      (leaf_mem_nodeHashes r _ hmem)

/-- Witness for the amended C3: a leaf-matched block stays contained
after inserting a different block. -/
theorem claim_C3_amended_witness :
    MerkleTree.contains ⟨some (MerkleNode.mk
      (some (MerkleTree.create_new_data_node [2]))
      (some (MerkleTree.create_new_data_node [1]))
      (MerkleTree.sha256_hasher [MerkleTree.sha256_hasher [[2]],
        MerkleTree.sha256_hasher [[1]]]))⟩ [2] = true :=
  claim_C3_amended_leaf_membership_preserved
    ⟨some (MerkleTree.create_new_data_node [2])⟩
    ⟨some (MerkleNode.mk
      (some (MerkleTree.create_new_data_node [2]))
      (some (MerkleTree.create_new_data_node [1]))
      (MerkleTree.sha256_hasher [MerkleTree.sha256_hasher [[2]],
        MerkleTree.sha256_hasher [[1]]]))⟩
    [1] [2]
    (by decide)
    (by simp [leafHashes, MerkleTree.create_new_data_node])
    (by simp [MerkleTree.insert, MerkleTree.insert_node, MerkleTree.create_new_data_node])
